import Mathlib

/-!
Verification of the telemetry plotting scripts (Trabalho-1/3/4/5/11).

The scripts are pandas pipelines: read a CSV, parse timestamps, derive
columns, group and reduce, and hand series to matplotlib.  We embed the
data-transforming lines shallowly:

* a pandas cell value is `PVal`: a rational number, NaN ("absent"), or a
  signed infinity, with subtraction, division, `clip(lower=0)`, `min`,
  `max` and `mean` following pandas/IEEE semantics on those values;
* a dataframe is a list of records (one structure per script, holding the
  columns the script touches);
* `groupby(..).mean()` sorts the distinct non-NaN keys ascending (the
  pandas default `sort=True`) and takes the NaN-skipping mean per group;
  rows whose key is NaN are dropped (`dropna=True`);
* `groupby(..).tail(1)` keeps, per key, the last row in input order,
  preserving the original row order of the frame;
* `pd.to_datetime(col, errors="coerce")` maps each cell through a parse
  function, turning failures into the NaT sentinel.
-/

/-- A pandas cell value: a (rational) number, NaN, or a signed infinity.
NaN doubles as the "absent" marker (pandas uses NaN for missing data). -/
inductive PVal where
  | num : ℚ → PVal
  | nan : PVal
  | inf : PVal
  | ninf : PVal
deriving DecidableEq, Repr

namespace PVal

/-- Is this value NaN (pandas "absent")? -/
def isNan : PVal → Bool
  | nan => true
  | _ => false

/-- IEEE-style subtraction, as used by `df["a"] - df["b"]`. -/
def sub : PVal → PVal → PVal
  | nan, _ => nan
  | _, nan => nan
  | num a, num b => num (a - b)
  | inf, inf => nan
  | inf, _ => inf
  | ninf, ninf => nan
  | ninf, _ => ninf
  | num _, inf => ninf
  | num _, ninf => inf

/-- IEEE-style addition (for summing a column). -/
def add : PVal → PVal → PVal
  | nan, _ => nan
  | _, nan => nan
  | num a, num b => num (a + b)
  | inf, ninf => nan
  | inf, _ => inf
  | ninf, inf => nan
  | ninf, _ => ninf
  | num _, inf => inf
  | num _, ninf => ninf

/-- IEEE-style division, as used by `final["total_path_length"] /
final["actual_distance"]`: a nonzero number divided by zero gives a signed
infinity, `0/0` gives NaN, and no error is ever raised. -/
def div : PVal → PVal → PVal
  | nan, _ => nan
  | _, nan => nan
  | num a, num b =>
      if b = 0 then (if a = 0 then nan else if 0 < a then inf else ninf)
      else num (a / b)
  | num _, inf => num 0
  | num _, ninf => num 0
  | inf, num b => if 0 ≤ b then inf else ninf
  | ninf, num b => if 0 ≤ b then ninf else inf
  | inf, _ => nan
  | ninf, _ => nan

/-- `.clip(lower=0)`: values below `0` are raised to `0`; NaN stays NaN. -/
def clip0 : PVal → PVal
  | num a => num (max 0 a)
  | nan => nan
  | inf => inf
  | ninf => num 0

/-- Strict `<` on cells (IEEE: every comparison with NaN is false). -/
def ltB : PVal → PVal → Bool
  | num a, num b => decide (a < b)
  | ninf, num _ => true
  | ninf, inf => true
  | num _, inf => true
  | _, _ => false

/-- Python's two-argument `min(a, b)`: `b` if `b < a` else `a`. -/
def pymin (a b : PVal) : PVal := if ltB b a then b else a

/-- Python's two-argument `max(a, b)`: `b` if `a < b` else `a`. -/
def pymax (a b : PVal) : PVal := if ltB a b then b else a

/-- Total "key order" used only to model the ascending key sort of
`groupby` (`sort=True`).  NaN keys never reach the sort (they are dropped
first), so their position in this order is unobservable. -/
def leB : PVal → PVal → Bool
  | nan, _ => true
  | _, nan => false
  | ninf, _ => true
  | _, ninf => false
  | num a, num b => decide (a ≤ b)
  | num _, inf => true
  | inf, num _ => false
  | inf, inf => true

end PVal

/-- The key order as a relation, for `List.insertionSort`. -/
def pLe (a b : PVal) : Prop := PVal.leB a b = true

instance : DecidableRel pLe := fun a b => by unfold pLe; infer_instance

instance : IsTotal PVal pLe := by
  constructor
  intro a b
  cases a <;> cases b <;> simp [pLe, PVal.leB] <;> exact le_total _ _

instance : IsTrans PVal pLe := by
  constructor
  intro a b c hab hbc
  cases a <;> cases b <;> cases c <;>
    simp_all [pLe, PVal.leB] <;> exact le_trans hab hbc

/-- `df["extra_steps"] = df["how_many_steps_agents_made"] -
df["total_agents_path_length"]` followed by
`df["extra_steps"] = df["extra_steps"].clip(lower=0)`
(trabalho-11/plot_python.py, lines 14-15). -/
def extra_steps (a b : PVal) : PVal := PVal.clip0 (PVal.sub a b)

/-- Whatever cell `clip(lower=0)` is applied to, a numeric result is
never negative. -/
lemma clip0_nonneg (x : PVal) (q : ℚ) (h : PVal.clip0 x = PVal.num q) : 0 ≤ q := by
  cases x <;> simp [PVal.clip0] at h
  · rw [← h]; exact le_max_left 0 _
  · rw [← h]

/-- C1: the clipped-difference derivation computes `max(0, a - b)` on
numeric cells — in particular `derive(3,10) = 0` and `derive(10,3) = 7` —
and whenever it yields a number at all, that number is nonnegative. -/
theorem extra_steps_clipped_difference :
    (∀ a b : ℚ, extra_steps (PVal.num a) (PVal.num b) = PVal.num (max 0 (a - b))) ∧
    extra_steps (PVal.num 3) (PVal.num 10) = PVal.num 0 ∧
    extra_steps (PVal.num 10) (PVal.num 3) = PVal.num 7 ∧
    (∀ v w q, extra_steps v w = PVal.num q → 0 ≤ q) := by
  refine ⟨fun a b => rfl, ?_, ?_, ?_⟩
  · have h : ((3 : ℚ) - 10) ≤ 0 := by norm_num
    simp [extra_steps, PVal.sub, PVal.clip0, max_eq_left h]
  · have h : (0 : ℚ) ≤ 10 - 3 := by norm_num
    simp [extra_steps, PVal.sub, PVal.clip0, max_eq_right h]
    norm_num
  · intro v w q h
    exact clip0_nonneg _ q h

/-- A parsed timestamp cell: a valid instant or the NaT sentinel. -/
inductive TStamp where
  | valid : ℚ → TStamp
  | NaT : TStamp
deriving DecidableEq

/-- `df["timestamp"] = pd.to_datetime(df["timestamp"], errors="coerce")`
(Trabalho-1/plot_python.py line 6, also trabalho-4 and trabalho-5): each
cell is parsed independently; a cell that fails to parse becomes the NaT
sentinel, the row is kept, and no error is raised.  The format parser
itself lives in pandas, so it is a parameter. -/
def to_datetime (parse : String → Option ℚ) (col : List String) : List TStamp :=
  col.map (fun s =>
    match parse s with
    | some t => TStamp.valid t
    | none => TStamp.NaT)

/-- C7: `errors="coerce"` timestamp parsing keeps every row (the output
column has the input's length), stores NaT exactly on the rows whose text
fails to parse, and stores the parsed instant on the rows that parse. -/
theorem to_datetime_coerce_tolerant (parse : String → Option ℚ) (col : List String) :
    (to_datetime parse col).length = col.length ∧
    (∀ (i : Nat) (s : String), col[i]? = some s → parse s = none →
      (to_datetime parse col)[i]? = some TStamp.NaT) ∧
    (∀ (i : Nat) (s : String) (t : ℚ), col[i]? = some s → parse s = some t →
      (to_datetime parse col)[i]? = some (TStamp.valid t)) := by
  refine ⟨List.length_map _ _, ?_, ?_⟩
  · intro i s hs hp
    simp [to_datetime, List.getElem?_map, hs, hp]
  · intro i s t hs hp
    simp [to_datetime, List.getElem?_map, hs, hp]

/-- A toy parser used only to instantiate `to_datetime` on concrete
input: it accepts exactly the text "2024-01-01". -/
def parse0 (s : String) : Option ℚ := if s = "2024-01-01" then some 1 else none

/-- C7 witness: with a malformed second cell, both rows survive and the
second one holds the NaT sentinel. -/
theorem to_datetime_coerce_tolerant_witness :
    (to_datetime parse0 ["2024-01-01", "oops"]).length = 2 ∧
    (to_datetime parse0 ["2024-01-01", "oops"])[1]? = some TStamp.NaT :=
  ⟨(to_datetime_coerce_tolerant parse0 ["2024-01-01", "oops"]).1,
   (to_datetime_coerce_tolerant parse0 ["2024-01-01", "oops"]).2.1 1 "oops" rfl
     (by simp [parse0])⟩

/-- One row of trabalho-11/plot_python.py's frame: the columns that
script touches.  `timestamp` is already parsed (`parse_dates`). -/
structure ARec where
  timestamp : ℚ
  how_many_steps_agents_made : PVal
  total_agents_path_length : PVal
  how_many_recalculations : PVal
  how_many_detections : PVal
deriving DecidableEq

/-- A row after the `extra_steps` derivation: the untouched source row
plus the one appended column. -/
structure ERec where
  src : ARec
  extra_steps : PVal
deriving DecidableEq

/-- The two derivation lines of trabalho-11/plot_python.py (14-15) as a
transform of the whole frame: appends the `extra_steps` column row by
row, touching nothing else. -/
def deriveExtra (rows : List ARec) : List ERec :=
  rows.map (fun r =>
    ⟨r, extra_steps r.how_many_steps_agents_made r.total_agents_path_length⟩)

/-- C9: derivation appends a field without mutating any source field —
projecting the enrichment away gives back the input list exactly (same
rows, same order), the row count is unchanged, and position `i` of the
output carries the derived value of position `i` of the input. -/
theorem deriveExtra_appends_without_mutation (rows : List ARec) :
    (deriveExtra rows).map ERec.src = rows ∧
    (deriveExtra rows).length = rows.length ∧
    (∀ i : Nat, ((deriveExtra rows)[i]?).map ERec.extra_steps =
      (rows[i]?).map (fun r =>
        extra_steps r.how_many_steps_agents_made r.total_agents_path_length)) := by
  refine ⟨?_, List.length_map _ _, ?_⟩
  · induction rows with
    | nil => rfl
    | cons a l ih => simpa [deriveExtra] using ih
  · intro i
    simp only [deriveExtra, List.getElem?_map]
    cases rows[i]? <;> rfl

/-- One row of trabalho-11/src/plot_python.py's frame: the columns that
script reads.  `timestamp` is already parsed (`parse_dates`). -/
structure MRec where
  timestamp : ℚ
  method_name : String
  collisions : PVal
  recalculations : PVal
  total_steps : PVal
  total_path_length : PVal
  actual_distance : PVal
  reached_goal_count : PVal
deriving DecidableEq

/-- `df = df[df["method_name"].isin(["GRID", "PATH","ORCA"])]`
(trabalho-11/src/plot_python.py line 8). -/
def methodFilter (rows : List MRec) : List MRec :=
  rows.filter (fun r => decide (r.method_name ∈ (["GRID", "PATH", "ORCA"] : List String)))

/-- `final = df.groupby("method_name").tail(1)` (line 10): a row is kept
exactly when no later row carries the same `method_name`; per key this is
the last row in input order, and the frame's row order is preserved. -/
def tail1 : List MRec → List MRec
  | [] => []
  | r :: rs =>
      if rs.any (fun s => decide (s.method_name = r.method_name)) then tail1 rs
      else r :: tail1 rs

/-- The summarized frame the four charts and the printed table use. -/
def finalRows (rows : List MRec) : List MRec := tail1 (methodFilter rows)

/-- `final["path_efficiency"] = final["total_path_length"] /
final["actual_distance"]` (lines 51-53), one cell of the new column. -/
def path_efficiency (r : MRec) : PVal :=
  PVal.div r.total_path_length r.actual_distance

/-- A concrete summarized row with planned length 12 and actual distance
0, for evaluating the ratio derivation at a zero denominator. -/
def zeroDistRow : MRec :=
  { timestamp := 1, method_name := "GRID", collisions := PVal.num 0,
    recalculations := PVal.num 0, total_steps := PVal.num 0,
    total_path_length := PVal.num 12, actual_distance := PVal.num 0,
    reached_goal_count := PVal.num 0 }

/-- C3 counterexample: `ratio(planned=12, actual=0)` evaluates to the
infinity sentinel, which is not the absent (NaN) marker — the code yields
a silent infinity, not an absent value. -/
theorem path_efficiency_div_zero_not_absent :
    path_efficiency zeroDistRow = PVal.inf ∧ PVal.inf ≠ PVal.nan := by
  constructor
  · norm_num [path_efficiency, zeroDistRow, PVal.div]
  · intro h
    exact PVal.noConfusion h

/-- C3 amended: dividing a positive planned length by a zero actual
distance yields the positive-infinity sentinel — never an exception, and
never the absent marker. -/
theorem path_efficiency_div_zero_inf (r : MRec) (p : ℚ)
    (hp : r.total_path_length = PVal.num p) (hpos : 0 < p)
    (hz : r.actual_distance = PVal.num 0) :
    path_efficiency r = PVal.inf := by
  simp [path_efficiency, hp, hz, PVal.div, hpos, hpos.ne']

/-- C3 witness: the amended statement at planned length 12. -/
theorem path_efficiency_div_zero_inf_witness :
    path_efficiency zeroDistRow = PVal.inf :=
  path_efficiency_div_zero_inf zeroDistRow 12 rfl (by norm_num) rfl

/-- Every row `tail(1)` keeps comes from the frame it was applied to. -/
lemma tail1_subset {r : MRec} : ∀ {rows : List MRec}, r ∈ tail1 rows → r ∈ rows := by
  intro rows
  induction rows with
  | nil => simp [tail1]
  | cons a rs ih =>
    simp only [tail1]
    split
    · intro h
      exact List.mem_cons_of_mem a (ih h)
    · intro h
      rcases List.mem_cons.mp h with h1 | h2
      · exact h1 ▸ List.mem_cons_self a rs
      · exact List.mem_cons_of_mem a (ih h2)

/-- C10: after the `isin` filter, every summarized row carries one of the
three method labels GRID, PATH, ORCA, and a row with any other label
survives neither the filter nor the summarization. -/
theorem finalRows_only_known_methods (rows : List MRec) :
    (∀ r ∈ finalRows rows, r.method_name ∈ (["GRID", "PATH", "ORCA"] : List String)) ∧
    (∀ r : MRec, r.method_name ∉ (["GRID", "PATH", "ORCA"] : List String) →
      r ∉ methodFilter rows ∧ r ∉ finalRows rows) := by
  have hf : ∀ r ∈ methodFilter rows,
      r.method_name ∈ (["GRID", "PATH", "ORCA"] : List String) := by
    intro r hr
    simpa using (List.mem_filter.mp hr).2
  refine ⟨fun r hr => hf r (tail1_subset hr), ?_⟩
  intro r hr
  exact ⟨fun hmem => hr (hf r hmem), fun hmem => hr (hf r (tail1_subset hmem))⟩

/-- A row with a method label outside the known three. -/
def otherRow : MRec :=
  { timestamp := 1, method_name := "OTHER", collisions := PVal.num 1,
    recalculations := PVal.num 1, total_steps := PVal.num 1,
    total_path_length := PVal.num 1, actual_distance := PVal.num 1,
    reached_goal_count := PVal.num 1 }

/-- C10 witness: the OTHER-labelled row is excluded from the filtered
frame and from the summaries. -/
theorem finalRows_only_known_methods_witness :
    otherRow ∉ methodFilter [otherRow, zeroDistRow] ∧
    otherRow ∉ finalRows [otherRow, zeroDistRow] :=
  (finalRows_only_known_methods [otherRow, zeroDistRow]).2 otherRow (by decide)

/-- Pandas `Series.mean()` with the default `skipna=True`: the arithmetic
mean of the non-NaN cells; NaN when every cell is NaN (pandas never
raises here). -/
def sMean (xs : List PVal) : PVal :=
  let p := xs.filter (fun v => !v.isNan)
  if p.isEmpty then PVal.nan
  else PVal.div (p.foldl PVal.add (PVal.num 0)) (PVal.num (p.length : ℚ))

/-- One row of trabalho-5/plot_python.py's frame: the columns that script
touches (timestamps go through `to_datetime(errors="coerce")`). -/
structure R5 where
  timestamp : TStamp
  start_points : PVal
  obstacles_amount : PVal
  time_to_finish_in_micros : PVal
deriving DecidableEq

/-- The distinct key values `groupby` aggregates over: NaN keys dropped
(`dropna=True`), duplicates removed, the rest sorted ascending (the
pandas default `sort=True`). -/
def groupKeys (ks : List PVal) : List PVal :=
  List.insertionSort pLe ((ks.filter (fun k => !k.isNan)).dedup)

/-- `start_group = df.groupby("start_points")["time_to_finish_in_micros"]
.mean().reset_index()` (trabalho-5/plot_python.py line 8): one
(key, mean) row per distinct non-NaN key, keys ascending. -/
def start_group (rows : List R5) : List (PVal × PVal) :=
  (groupKeys (rows.map R5.start_points)).map
    (fun k => (k, sMean ((rows.filter
      (fun r => decide (r.start_points = k))).map R5.time_to_finish_in_micros)))

/-- Line 9: the same aggregation keyed on `obstacles_amount`. -/
def obstacle_group (rows : List R5) : List (PVal × PVal) :=
  (groupKeys (rows.map R5.obstacles_amount)).map
    (fun k => (k, sMean ((rows.filter
      (fun r => decide (r.obstacles_amount = k))).map R5.time_to_finish_in_micros)))

/-- The grouping underlying `start_group`: each distinct non-NaN key
paired with the rows that carry it. -/
def groups5 (rows : List R5) : List (PVal × List R5) :=
  (groupKeys (rows.map R5.start_points)).map
    (fun k => (k, rows.filter (fun r => decide (r.start_points = k))))

/-- The distinct keys are nodup and are exactly the non-NaN keys. -/
lemma groupKeys_nodup (ks : List PVal) : (groupKeys ks).Nodup :=
  ((List.perm_insertionSort pLe _).nodup_iff).mpr (List.nodup_dedup _)

lemma mem_groupKeys {ks : List PVal} {k : PVal} :
    k ∈ groupKeys ks ↔ k ∈ ks ∧ ¬k.isNan := by
  rw [groupKeys, (List.perm_insertionSort pLe _).mem_iff, List.mem_dedup,
    List.mem_filter]
  simp

/-- Counting, over the groups, those that contain a fixed row of the
frame reduces to counting the keys equal to that row's key. -/
lemma groups5_countP (rows : List R5) (r : R5) (hr : r ∈ rows) :
    (groups5 rows).countP (fun g => decide (r ∈ g.2)) =
      (groupKeys (rows.map R5.start_points)).countP
        (fun k => decide (r.start_points = k)) := by
  rw [groups5, List.countP_map]
  apply List.countP_congr
  intro k _
  simp only [Function.comp_apply, decide_eq_true_eq]
  simp [List.mem_filter, hr]

/-- C4 (amended): per grouping key, the groups partition the rows whose
key is present — a row with a non-NaN key lies in exactly one group, a
row with a NaN key lies in no group, distinct groups have distinct keys
and are disjoint, and every group member comes from the frame and
carries the group's key. -/
theorem groups5_partition_present_keys (rows : List R5) :
    (∀ r ∈ rows, r.start_points ≠ PVal.nan →
      (groups5 rows).countP (fun g => decide (r ∈ g.2)) = 1) ∧
    (∀ r ∈ rows, r.start_points = PVal.nan →
      (groups5 rows).countP (fun g => decide (r ∈ g.2)) = 0) ∧
    (groups5 rows).Pairwise (fun g h => g.1 ≠ h.1 ∧ ∀ r ∈ g.2, r ∉ h.2) ∧
    (∀ g ∈ groups5 rows, ∀ r ∈ g.2, r ∈ rows ∧ r.start_points = g.1) := by
  refine ⟨?_, ?_, ?_, ?_⟩
  · intro r hr hnan
    rw [groups5_countP rows r hr]
    have hkmem : r.start_points ∈ groupKeys (rows.map R5.start_points) := by
      rw [mem_groupKeys]
      refine ⟨List.mem_map_of_mem R5.start_points hr, ?_⟩
      cases h : r.start_points <;> simp [PVal.isNan] at hnan ⊢
      exact hnan h
    calc (groupKeys (rows.map R5.start_points)).countP
          (fun k => decide (r.start_points = k))
        = (groupKeys (rows.map R5.start_points)).count r.start_points := by
          rw [List.count_eq_countP]
          apply List.countP_congr
          intro k _
          rw [decide_eq_true_eq, beq_iff_eq]
          exact eq_comm
      _ = 1 := List.count_eq_one_of_mem (groupKeys_nodup _) hkmem
  · intro r hr hnan
    rw [groups5_countP rows r hr, List.countP_eq_zero]
    intro k hk
    have := (mem_groupKeys.mp hk).2
    simp only [decide_eq_true_eq]
    intro hek
    rw [← hek] at this
    rw [hnan] at this
    exact this rfl
  · rw [groups5, List.pairwise_map]
    apply List.Pairwise.imp ?_ (groupKeys_nodup (rows.map R5.start_points))
    intro k1 k2 hne
    refine ⟨hne, ?_⟩
    intro r hr1 hr2
    have e1 := of_decide_eq_true (List.mem_filter.mp hr1).2
    have e2 := of_decide_eq_true (List.mem_filter.mp hr2).2
    exact hne (e1 ▸ e2)
  · intro g hg r hrg
    rw [groups5, List.mem_map] at hg
    obtain ⟨k, _, rfl⟩ := hg
    have h2 := List.mem_filter.mp hrg
    exact ⟨h2.1, of_decide_eq_true h2.2⟩

/-- A trabalho-5 row with numeric key `k` and measurement `v`. -/
def r5 (k v : ℚ) : R5 :=
  { timestamp := TStamp.valid 0, start_points := PVal.num k,
    obstacles_amount := PVal.num 0, time_to_finish_in_micros := PVal.num v }

/-- C4 witness: in a two-row frame with keys 5 and 2, the first row lies
in exactly one group. -/
theorem groups5_partition_present_keys_witness :
    (groups5 [r5 5 1, r5 2 3]).countP (fun g => decide (r5 5 1 ∈ g.2)) = 1 :=
  (groups5_partition_present_keys [r5 5 1, r5 2 3]).1 (r5 5 1)
    (List.mem_cons_self _ _) (by simp [r5])

/-- A row whose grouping key is absent (NaN), as a missing CSV cell
becomes after `read_csv`. -/
def nanKeyRow : R5 :=
  { timestamp := TStamp.valid 0, start_points := PVal.nan,
    obstacles_amount := PVal.num 0, time_to_finish_in_micros := PVal.num 2 }

/-- C4 counterexample: a frame consisting of one NaN-keyed row is
nonempty, yet `groupby` produces no group at all — that row belongs to no
group, so the groups do not partition the full record set. -/
theorem groups5_nan_key_escapes_partition :
    nanKeyRow ∈ [nanKeyRow] ∧ groups5 [nanKeyRow] = [] :=
  ⟨List.mem_cons_self _ _, rfl⟩

/-- First-seen deduplication — modelled from the spec's words ("group order
is the first-seen order of the key"), to compare with the code's order. -/
def firstSeenAux : List PVal → List PVal
  | [] => []
  | k :: ks => k :: (firstSeenAux ks).filter (fun k2 => decide (k2 ≠ k))

/-- The key order the spec's words describe: first-seen order of the
non-NaN keys.  This is a spec-side definition, not the code's. -/
def firstSeenKeys_spec (rows : List R5) : List PVal :=
  firstSeenAux ((rows.map R5.start_points).filter (fun k => !k.isNan))

/-- C5 counterexample: with keys seen in order 5 then 2, the aggregation
emits groups in order 2, 5 (pandas `groupby` sorts keys by default), not
in the first-seen order 5, 2. -/
theorem start_group_not_first_seen_order :
    (start_group [r5 5 1, r5 2 3]).map Prod.fst = [PVal.num 2, PVal.num 5] ∧
    firstSeenKeys_spec [r5 5 1, r5 2 3] = [PVal.num 5, PVal.num 2] ∧
    ([PVal.num 2, PVal.num 5] : List PVal) ≠ [PVal.num 5, PVal.num 2] :=
  ⟨rfl, rfl, by decide⟩

/-- An MRec row carrying the fields the end-to-end example uses. -/
def mrow (t : ℚ) (m : String) (c : ℚ) : MRec :=
  { timestamp := t, method_name := m, collisions := PVal.num c,
    recalculations := PVal.num 0, total_steps := PVal.num 0,
    total_path_length := PVal.num 0, actual_distance := PVal.num 1,
    reached_goal_count := PVal.num 0 }

/-- C5 (amended): the mean aggregation emits its groups in ascending key
order — sorting is the pandas default, first-seen order is not kept —
while `groupby(..).tail(1)` keeps the frame's row order; on the cited
example frame the emitted order is [GRID, PATH] with summaries 5 and 1
(GRID before PATH because ascending/`tail(1)` order coincides with
first-seen order there). -/
theorem group_emission_order :
    (∀ rows : List R5, List.Sorted pLe ((start_group rows).map Prod.fst)) ∧
    (finalRows [mrow 1 "GRID" 3, mrow 2 "GRID" 5, mrow 1 "PATH" 1]).map
      MRec.method_name = ["GRID", "PATH"] ∧
    (finalRows [mrow 1 "GRID" 3, mrow 2 "GRID" 5, mrow 1 "PATH" 1]).map
      MRec.collisions = [PVal.num 5, PVal.num 1] := by
  refine ⟨?_, rfl, rfl⟩
  intro rows
  have h : (start_group rows).map Prod.fst = groupKeys (rows.map R5.start_points) := by
    rw [start_group, List.map_map]
    exact List.map_id _
  rw [h]
  exact List.sorted_insertionSort pLe _

/-- A column of plain numbers has no NaN to skip. -/
lemma filter_notNan_map_num (ys : List ℚ) :
    (ys.map PVal.num).filter (fun v => !v.isNan) = ys.map PVal.num := by
  rw [List.filter_eq_self]
  intro a ha
  obtain ⟨y, _, rfl⟩ := List.mem_map.mp ha
  rfl

/-- Summing a column of plain numbers is rational addition. -/
lemma foldl_add_map_num (ys : List ℚ) : ∀ a : ℚ,
    (ys.map PVal.num).foldl PVal.add (PVal.num a) = PVal.num (a + ys.sum) := by
  induction ys with
  | nil => intro a; simp
  | cons y t ih =>
    intro a
    simp only [List.map_cons, List.foldl_cons]
    rw [show PVal.add (PVal.num a) (PVal.num y) = PVal.num (a + y) from rfl, ih (a + y)]
    congr 1
    rw [List.sum_cons]
    ring

/-- C6: the mean reduction averages exactly the present (non-NaN) cells —
when the present cells of the column are the numbers `ys`, the summary is
absent (NaN) if there are none, and `(sum ys) / |ys|` otherwise; no error
and no division by zero can occur. -/
theorem sMean_present_values (xs : List PVal) (ys : List ℚ)
    (h : xs.filter (fun v => !v.isNan) = ys.map PVal.num) :
    (ys = [] → sMean xs = PVal.nan) ∧
    (ys ≠ [] → sMean xs = PVal.num (ys.sum / (ys.length : ℚ))) := by
  constructor
  · intro he
    subst he
    simp only [List.map_nil] at h
    simp [sMean, h]
  · intro hne
    rcases ys with _ | ⟨y, t⟩
    · exact absurd rfl hne
    · simp only [sMean, h, List.map_cons, List.isEmpty_cons, Bool.false_eq_true,
        if_false]
      rw [show (PVal.num y :: List.map PVal.num t) = List.map PVal.num (y :: t) from rfl,
        foldl_add_map_num (y :: t) 0, zero_add]
      have hlen : ((y :: t).length : ℚ) ≠ 0 := by
        simp [List.length_cons]
        exact Nat.cast_add_one_ne_zero t.length
      rw [List.length_map]
      simp only [PVal.div]
      rw [if_neg hlen]

/-- C6 witness: values [10, 20, 30] average to 20, and a group whose
cells are all NaN summarizes to NaN. -/
theorem sMean_present_values_witness :
    sMean [PVal.num 10, PVal.num 20, PVal.num 30] = PVal.num 20 ∧
    sMean [PVal.nan, PVal.nan] = PVal.nan := by
  constructor
  · rw [(sMean_present_values [PVal.num 10, PVal.num 20, PVal.num 30]
      [10, 20, 30] rfl).2 (by simp)]
    norm_num
  · exact (sMean_present_values [PVal.nan, PVal.nan] [] rfl).1 rfl

/-- Pandas `Series.min()` (default `skipna=True`): the least non-NaN
cell, NaN when there is none. -/
def slmin (xs : List PVal) : PVal :=
  match xs.filter (fun v => !v.isNan) with
  | [] => PVal.nan
  | y :: ys => ys.foldl PVal.pymin y

/-- Pandas `Series.max()` (default `skipna=True`): the greatest non-NaN
cell, NaN when there is none. -/
def slmax (xs : List PVal) : PVal :=
  match xs.filter (fun v => !v.isNan) with
  | [] => PVal.nan
  | y :: ys => ys.foldl PVal.pymax y

/-- `y_min = min(start_group[c].min(), obstacle_group[c].min())`
(trabalho-5/plot_python.py line 11), as a function of the two aggregated
series; the same single value is then passed to `set_ylim` on both axes
(lines 29 and 44). -/
def y_min_shared (s1 s2 : List PVal) : PVal := PVal.pymin (slmin s1) (slmin s2)

/-- `y_max = max(start_group[c].max(), obstacle_group[c].max())`
(line 12), shared by both `set_ylim` calls. -/
def y_max_shared (s1 s2 : List PVal) : PVal := PVal.pymax (slmax s1) (slmax s2)

/-- Python `min` on two plain numbers is rational `min`. -/
lemma pymin_num (a b : ℚ) :
    PVal.pymin (PVal.num a) (PVal.num b) = PVal.num (min a b) := by
  simp only [PVal.pymin, PVal.ltB, decide_eq_true_eq]
  split_ifs with h
  · rw [min_eq_right h.le]
  · rw [min_eq_left (not_lt.mp h)]

/-- Python `max` on two plain numbers is rational `max`. -/
lemma pymax_num (a b : ℚ) :
    PVal.pymax (PVal.num a) (PVal.num b) = PVal.num (max a b) := by
  simp only [PVal.pymax, PVal.ltB, decide_eq_true_eq]
  split_ifs with h
  · rw [max_eq_right h.le]
  · rw [max_eq_left (not_lt.mp h)]

lemma foldl_pymin_map_num (t : List ℚ) : ∀ a : ℚ,
    (t.map PVal.num).foldl PVal.pymin (PVal.num a) = PVal.num (t.foldl min a) := by
  induction t with
  | nil => intro a; rfl
  | cons y s ih =>
    intro a
    simp only [List.map_cons, List.foldl_cons, pymin_num]
    exact ih (min a y)

lemma foldl_pymax_map_num (t : List ℚ) : ∀ a : ℚ,
    (t.map PVal.num).foldl PVal.pymax (PVal.num a) = PVal.num (t.foldl max a) := by
  induction t with
  | nil => intro a; rfl
  | cons y s ih =>
    intro a
    simp only [List.map_cons, List.foldl_cons, pymax_num]
    exact ih (max a y)

lemma foldl_min_mem (t : List ℚ) : ∀ a : ℚ, t.foldl min a ∈ a :: t := by
  induction t with
  | nil => intro a; simp
  | cons y s ih =>
    intro a
    simp only [List.foldl_cons]
    rcases List.mem_cons.mp (ih (min a y)) with h1 | h2
    · rcases min_choice a y with hc | hc
      · rw [h1, hc]; exact List.mem_cons_self _ _
      · rw [h1, hc]; exact List.mem_cons_of_mem _ (List.mem_cons_self _ _)
    · exact List.mem_cons_of_mem _ (List.mem_cons_of_mem _ h2)

lemma foldl_max_mem (t : List ℚ) : ∀ a : ℚ, t.foldl max a ∈ a :: t := by
  induction t with
  | nil => intro a; simp
  | cons y s ih =>
    intro a
    simp only [List.foldl_cons]
    rcases List.mem_cons.mp (ih (max a y)) with h1 | h2
    · rcases max_choice a y with hc | hc
      · rw [h1, hc]; exact List.mem_cons_self _ _
      · rw [h1, hc]; exact List.mem_cons_of_mem _ (List.mem_cons_self _ _)
    · exact List.mem_cons_of_mem _ (List.mem_cons_of_mem _ h2)

lemma foldl_min_le (t : List ℚ) : ∀ a : ℚ, ∀ x ∈ a :: t, t.foldl min a ≤ x := by
  induction t with
  | nil =>
    intro a x hx
    rw [List.mem_singleton.mp hx]
    exact le_refl _
  | cons y s ih =>
    intro a x hx
    simp only [List.foldl_cons]
    rcases List.mem_cons.mp hx with h1 | h2
    · rw [h1]
      exact le_trans (ih (min a y) _ (List.mem_cons_self _ _)) (min_le_left a y)
    · rcases List.mem_cons.mp h2 with h3 | h4
      · rw [h3]
        exact le_trans (ih (min a y) _ (List.mem_cons_self _ _)) (min_le_right a y)
      · exact ih (min a y) x (List.mem_cons_of_mem _ h4)

lemma le_foldl_max (t : List ℚ) : ∀ a : ℚ, ∀ x ∈ a :: t, x ≤ t.foldl max a := by
  induction t with
  | nil =>
    intro a x hx
    rw [List.mem_singleton.mp hx]
    exact le_refl _
  | cons y s ih =>
    intro a x hx
    simp only [List.foldl_cons]
    rcases List.mem_cons.mp hx with h1 | h2
    · rw [h1]
      exact le_trans (le_max_left a y) (ih (max a y) _ (List.mem_cons_self _ _))
    · rcases List.mem_cons.mp h2 with h3 | h4
      · rw [h3]
        exact le_trans (le_max_right a y) (ih (max a y) _ (List.mem_cons_self _ _))
      · exact ih (max a y) x (List.mem_cons_of_mem _ h4)

/-- `Series.min()` of a nonempty plain-number column. -/
lemma slmin_cons_map_num (a : ℚ) (t : List ℚ) :
    slmin ((a :: t).map PVal.num) = PVal.num (t.foldl min a) := by
  simp only [slmin, List.map_cons]
  rw [show List.filter (fun v => !v.isNan) (PVal.num a :: List.map PVal.num t) =
    PVal.num a :: List.map PVal.num t from filter_notNan_map_num (a :: t)]
  exact foldl_pymin_map_num t a

/-- `Series.max()` of a nonempty plain-number column. -/
lemma slmax_cons_map_num (a : ℚ) (t : List ℚ) :
    slmax ((a :: t).map PVal.num) = PVal.num (t.foldl max a) := by
  simp only [slmax, List.map_cons]
  rw [show List.filter (fun v => !v.isNan) (PVal.num a :: List.map PVal.num t) =
    PVal.num a :: List.map PVal.num t from filter_notNan_map_num (a :: t)]
  exact foldl_pymax_map_num t a

/-- C8: for two nonempty numeric series, the shared y-range is a pair of
numbers (min of the two series minima, max of the two maxima): both
bounds are attained in the union of the series, and every value of either
series lies between them. -/
theorem y_shared_bounds (s1 s2 : List ℚ) (h1 : s1 ≠ []) (h2 : s2 ≠ []) :
    ∃ m M : ℚ,
      y_min_shared (s1.map PVal.num) (s2.map PVal.num) = PVal.num m ∧
      y_max_shared (s1.map PVal.num) (s2.map PVal.num) = PVal.num M ∧
      m ∈ s1 ++ s2 ∧ M ∈ s1 ++ s2 ∧ ∀ x ∈ s1 ++ s2, m ≤ x ∧ x ≤ M := by
  rcases s1 with _ | ⟨a, t1⟩
  · exact absurd rfl h1
  rcases s2 with _ | ⟨b, t2⟩
  · exact absurd rfl h2
  refine ⟨min (t1.foldl min a) (t2.foldl min b),
    max (t1.foldl max a) (t2.foldl max b), ?_, ?_, ?_, ?_, ?_⟩
  · rw [y_min_shared, slmin_cons_map_num, slmin_cons_map_num, pymin_num]
  · rw [y_max_shared, slmax_cons_map_num, slmax_cons_map_num, pymax_num]
  · rcases min_choice (t1.foldl min a) (t2.foldl min b) with hc | hc <;> rw [hc]
    · exact List.mem_append_left _ (foldl_min_mem t1 a)
    · exact List.mem_append_right _ (foldl_min_mem t2 b)
  · rcases max_choice (t1.foldl max a) (t2.foldl max b) with hc | hc <;> rw [hc]
    · exact List.mem_append_left _ (foldl_max_mem t1 a)
    · exact List.mem_append_right _ (foldl_max_mem t2 b)
  · intro x hx
    rcases List.mem_append.mp hx with hm | hm
    · exact ⟨le_trans (min_le_left _ _) (foldl_min_le t1 a x hm),
        le_trans (le_foldl_max t1 a x hm) (le_max_left _ _)⟩
    · exact ⟨le_trans (min_le_right _ _) (foldl_min_le t2 b x hm),
        le_trans (le_foldl_max t2 b x hm) (le_max_right _ _)⟩

/-- C8 witness: series with values [0, 10] and [5, 25] get the shared
bounds (0, 25). -/
theorem y_shared_bounds_witness :
    y_min_shared [PVal.num 0, PVal.num 10] [PVal.num 5, PVal.num 25] = PVal.num 0 ∧
    y_max_shared [PVal.num 0, PVal.num 10] [PVal.num 5, PVal.num 25] = PVal.num 25 ∧
    (∃ m M : ℚ,
      y_min_shared (([0, 10] : List ℚ).map PVal.num) (([5, 25] : List ℚ).map PVal.num) = PVal.num m ∧
      y_max_shared (([0, 10] : List ℚ).map PVal.num) (([5, 25] : List ℚ).map PVal.num) = PVal.num M ∧
      m ∈ ([0, 10] : List ℚ) ++ [5, 25] ∧ M ∈ ([0, 10] : List ℚ) ++ [5, 25] ∧
      ∀ x ∈ ([0, 10] : List ℚ) ++ [5, 25], m ≤ x ∧ x ≤ M) :=
  ⟨rfl, rfl, y_shared_bounds [0, 10] [5, 25] (by decide) (by decide)⟩

/-- Dropping the head of a list with a nonempty tail does not change its
last element. -/
lemma getLast?_cons_of_ne_nil {a : MRec} {l : List MRec} (h : l ≠ []) :
    (a :: l).getLast? = l.getLast? := by
  cases l with
  | nil => exact absurd rfl h
  | cons b t => exact List.getLast?_cons_cons

/-- What `tail(1)` keeps of each key's subsequence is exactly the last
element, in input order, of that subsequence. -/
lemma tail1_filter_key (k : String) : ∀ rows : List MRec,
    (tail1 rows).filter (fun r => decide (r.method_name = k)) =
      ((rows.filter (fun r => decide (r.method_name = k))).getLast?).toList := by
  intro rows
  induction rows with
  | nil => rfl
  | cons a rs ih =>
    simp only [tail1]
    by_cases hd : rs.any (fun s => decide (s.method_name = a.method_name)) = true
    · rw [if_pos hd]
      by_cases hk : a.method_name = k
      · have hex : ∃ s ∈ rs, s.method_name = a.method_name := by
          simpa using List.any_eq_true.mp hd
        obtain ⟨s, hs, hsk⟩ := hex
        have hsF : s ∈ rs.filter (fun r => decide (r.method_name = k)) := by
          rw [List.mem_filter]
          exact ⟨hs, by simp [hsk, hk]⟩
        rw [List.filter_cons_of_pos (by simp [hk]),
          getLast?_cons_of_ne_nil (List.ne_nil_of_mem hsF)]
        exact ih
      · rw [List.filter_cons_of_neg (by simp [hk])]
        exact ih
    · rw [if_neg hd]
      have hno : ∀ s ∈ rs, s.method_name ≠ a.method_name := by
        intro s hs he
        exact hd (List.any_eq_true.mpr ⟨s, hs, by simp [he]⟩)
      by_cases hk : a.method_name = k
      · have hFnil : rs.filter (fun r => decide (r.method_name = k)) = [] := by
          rw [List.filter_eq_nil_iff]
          intro s hs
          simp only [decide_eq_true_eq]
          intro he
          exact hno s hs (he.trans hk.symm)
        have hFnil2 : (tail1 rs).filter (fun r => decide (r.method_name = k)) = [] := by
          rw [List.filter_eq_nil_iff]
          intro s hs
          simp only [decide_eq_true_eq]
          intro he
          exact hno s (tail1_subset hs) (he.trans hk.symm)
        rw [List.filter_cons_of_pos (by simp [hk]),
          List.filter_cons_of_pos (by simp [hk]), hFnil, hFnil2]
        rfl
      · rw [List.filter_cons_of_neg (by simp [hk]),
          List.filter_cons_of_neg (by simp [hk])]
        exact ih

/-- C2 (amended): `groupby(..).tail(1)` summarizes each group by its last
record in input order — the tail of the key's filtered subsequence — not
by timestamp; when a group's records arrive in timestamp order, as in the
cited [t1<t2<t3]/[5,7,9] example, that record is also the chronologically
last and the summary is 9. -/
theorem tail1_last_in_input_order :
    (∀ (rows : List MRec) (k : String),
      (tail1 rows).filter (fun r => decide (r.method_name = k)) =
        ((rows.filter (fun r => decide (r.method_name = k))).getLast?).toList) ∧
    tail1 [mrow 1 "GRID" 5, mrow 2 "GRID" 7, mrow 3 "GRID" 9] = [mrow 3 "GRID" 9] ∧
    (mrow 3 "GRID" 9).collisions = PVal.num 9 :=
  ⟨fun rows k => tail1_filter_key k rows, rfl, rfl⟩

/-- C2 counterexample: a GRID group supplied out of timestamp order —
timestamps 2, 3, 1 carrying values 7, 9, 5 — summarizes to value 5, the
input-last row (timestamp 1), not to value 9, the chronologically last
row (timestamp 3). -/
theorem tail1_not_chronological :
    tail1 [mrow 2 "GRID" 7, mrow 3 "GRID" 9, mrow 1 "GRID" 5] = [mrow 1 "GRID" 5] ∧
    (mrow 1 "GRID" 5).collisions = PVal.num 5 ∧
    (mrow 1 "GRID" 5).timestamp < (mrow 3 "GRID" 9).timestamp ∧
    PVal.num (5 : ℚ) ≠ PVal.num 9 :=
  ⟨rfl, rfl, by decide, by decide⟩

/-- C1 witness: the nonnegativity clause applied at derive(10, 3) = 7. -/
theorem extra_steps_clipped_difference_witness :
    extra_steps (PVal.num 10) (PVal.num 3) = PVal.num 7 ∧ (0 : ℚ) ≤ 7 :=
  ⟨extra_steps_clipped_difference.2.2.1,
   extra_steps_clipped_difference.2.2.2 (PVal.num 10) (PVal.num 3) 7
     extra_steps_clipped_difference.2.2.1⟩
